import Mathlib

/-!
Shallow embedding of the core logic of `svn_select_to_git.py`, a script that
migrates selected SVN revisions into a git repository, together with theorems
checking the natural-language specification of the repository against it.

Python strings are modelled as `String` (or `List Char` where character-level
surgery is involved), Python integers as `Int`, fallible operations as
`Option` or `Except`, and `os.linesep` as the newline character (the script
targets Linux).  Each definition mirrors one function or method of the source
file; the source line numbers are given in the doc comments.
-/

namespace SvnSelectToGit

/-! ### Python primitives used by the script -/

/-- Model of `str.split(":")` on the character list of a Python string:
splits at every colon, keeping empty fields, so the result always has
(number of colons + 1) entries; in particular splitting the empty string
yields `[[]]`. -/
def pySplitColon : List Char → List (List Char)
  | [] => [[]]
  | c :: cs =>
    match pySplitColon cs with
    | [] => [[]]
    | f :: rest => if c = ':' then [] :: f :: rest else (c :: f) :: rest

/-- Numeric value of a list of decimal digit characters, most significant
first, as accumulated by a left fold. -/
def digitsVal (ds : List Char) : Nat :=
  ds.foldl (fun a c => a * 10 + (c.toNat - 48)) 0

/-- Model of Python `int(s)` on a decimal string: an optional leading minus
sign followed by at least one digit; anything else raises `ValueError`,
modelled as `none`. -/
def pyInt (s : List Char) : Option Int :=
  match s with
  | [] => none
  | '-' :: ds =>
    if ds ≠ [] ∧ ds.all (fun c => c.isDigit) then some (-(digitsVal ds : Int)) else none
  | ds =>
    if ds.all (fun c => c.isDigit) then some ((digitsVal ds : Int)) else none

/-- Decimal digit characters of a natural number, produced with explicit
fuel so that the definition is structurally recursive; `n + 1` units of fuel
always suffice since the argument shrinks by a factor of ten each step. -/
def natDigitsFuel : Nat → Nat → List Char
  | 0, _ => []
  | fuel + 1, n =>
    if n < 10 then [Nat.digitChar n]
    else natDigitsFuel fuel (n / 10) ++ [Nat.digitChar (n % 10)]

/-- Model of Python `str(n)` for a natural number. -/
def pyStrNat (n : Nat) : String :=
  (natDigitsFuel (n + 1) n).asString

/-- Model of Python `str(i)` for an integer. -/
def pyStr (i : Int) : String :=
  if i < 0 then "-" ++ pyStrNat (-i).toNat else pyStrNat i.toNat

/-- Model of Python `list.index(m)` restricted to integer lists: position of
the first occurrence of `m`.  Python raises `ValueError` when `m` is absent;
the source only calls it on a value known to occur, and the theorems below
only rely on that case. -/
def listIndex (m : Int) : List Int → Nat
  | [] => 0
  | x :: xs => if x = m then 0 else listIndex m xs + 1

/-- Model of `os.linesep` on the platform the script targets. -/
def linesep : String := "\n"

/-! ### SvnRevRange (source lines 563 to 636) -/

/-- Errors with which `SvnRevRange.__init__` can abort: `illegalRevString`
is the fatal `quitOnFail` on more than one colon, `intValueError` is the
uncaught `ValueError` raised by `int()` on a non-numeric field, and
`badFormat` is the final (unreachable) `quitOnFail` branch. -/
inductive RevRangeErr where
  | illegalRevString : RevRangeErr
  | intValueError : RevRangeErr
  | badFormat : RevRangeErr
deriving DecidableEq

/-- A range of SVN revisions; `start = -1` means earliest (BASE), `endRev = -1`
means most recent (HEAD), and `0` on either side means not specified.
The Python attribute `end` is called `endRev` here because `end` is a Lean
keyword. -/
structure SvnRevRange where
  start : Int
  endRev : Int
deriving DecidableEq, Repr

/-- Model of `SvnRevRange.__init__` (source lines 569 to 604), taking the
character list of the revision string (`none` models a `None` argument).
The branches follow the source exactly: more than two colon-separated parts
is a fatal error; two parts parse each non-empty side with `int()`; otherwise
the literal strings HEAD and BASE are special-cased; a single part parses a
non-empty field with `int()` and sets the end to 0. -/
def SvnRevRange.init (revstr : Option (List Char)) : Except RevRangeErr SvnRevRange :=
  match revstr with
  | none => .ok ⟨-1, -1⟩
  | some rs =>
    let revs := pySplitColon rs
    if revs.length > 2 then
      .error .illegalRevString
    else
      match revs with
      | [r0, r1] =>
        let startE : Except RevRangeErr Int :=
          if r0.length > 0 then
            match pyInt r0 with
            | some v => .ok v
            | none => .error .intValueError
          else .ok (-1)
        let endE : Except RevRangeErr Int :=
          if r1.length > 0 then
            match pyInt r1 with
            | some v => .ok v
            | none => .error .intValueError
          else .ok (-1)
        do
          let s ← startE
          let e ← endE
          return ⟨s, e⟩
      | [r0] =>
        if rs = "HEAD".data then .ok ⟨0, -1⟩
        else if rs = "BASE".data then .ok ⟨-1, 0⟩
        else if r0.length > 0 then
          match pyInt r0 with
          | some v => .ok ⟨v, 0⟩
          | none => .error .intValueError
        else .ok ⟨-1, 0⟩
      | _ => .error .badFormat

/-- Model of `SvnRevRange.revString` (source lines 606 to 627): a negative
start renders as the string 1, a zero start as the empty string, a negative
end as the keyword HEAD, a zero end as the empty string, and the two sides
are joined with a colon exactly when both are non-empty. -/
def SvnRevRange.revString (r : SvnRevRange) : String :=
  let sstr := if r.start < 0 then "1" else if r.start = 0 then "" else pyStr r.start
  let estr := if r.endRev < 0 then "HEAD" else if r.endRev = 0 then "" else pyStr r.endRev
  if 0 < sstr.length ∧ 0 < estr.length then sstr ++ ":" ++ estr else sstr ++ estr

/-! ### Log entries and the commit message (source lines 638 to 715) -/

/-- Prefix of the committer line of the provenance footer (source line 22). -/
def cby_str : String := "Committed by"

/-- Model of the `SvnLogEntry` class (source lines 675 to 715), flattening
the `LogEntry` base class into one record.  The revision is stored as its
numeric value (`revNum` in the source is `int(self.revstr)`), and the commit
message as the list of its lines. -/
structure SvnLogEntry where
  revNum : Int
  committer : String
  commit_date : String
  URL : String
  message : List String
  revTag : Option String
deriving DecidableEq, Repr

/-- Model of `SvnLogEntry.formatLogMessage` (source lines 687 to 705).
Accessing `self.message[0]` on an empty message raises `IndexError`,
modelled as `none`.  The truncation takes the first 68 characters and adds
a space and three dots when the first line exceeds 72 characters. -/
def SvnLogEntry.formatLogMessage (e : SvnLogEntry) : Option String :=
  match e.message with
  | [] => none
  | m0 :: _ =>
    let logm := if m0.length > 72 then (m0.data.take 68).asString ++ " ..." else m0
    let logm := logm ++ linesep ++ linesep
    let logm := logm ++ "Imported from " ++ e.URL ++ "@" ++ pyStr e.revNum
    let logm := logm ++ linesep ++ cby_str ++ " " ++ e.committer
    let logm := logm ++ " at " ++ e.commit_date ++ linesep
    let logm := logm ++ "Original svn commit message:" ++ linesep
    some (e.message.foldl (fun acc line => acc ++ linesep ++ line) logm)

/-- Join a list of lines with single newlines and no trailing newline, so
that the result has exactly the given lines. -/
def joinLines : List String → String
  | [] => ""
  | [l] => l
  | l :: l2 :: ls => l ++ linesep ++ joinLines (l2 :: ls)

/-- Stated from the claim wording (spec section 6): summary line, blank
line, the full original message, a blank line, then the provenance footer
(import line, committer line, the header `Original svn commit message:`
followed by the original message lines).  This is the layout the claim
asserts for `formatLogMessage`; it is compared against the source
definition above. -/
def SvnLogEntry.formatLogMessageClaimed (e : SvnLogEntry) : Option String :=
  match e.message with
  | [] => none
  | m0 :: _ =>
    let summary := if m0.length > 72 then (m0.data.take 68).asString ++ " ..." else m0
    some (joinLines ([summary, ""] ++ e.message ++ [""] ++
      ["Imported from " ++ e.URL ++ "@" ++ pyStr e.revNum,
       cby_str ++ " " ++ e.committer ++ " at " ++ e.commit_date,
       "Original svn commit message:"] ++ e.message))

/-- Model of the `Git2svnLogEntry` class (source lines 717 to 733): the git
commit hash together with the SVN information recovered from the provenance
footer of an existing git commit. -/
structure Git2svnLogEntry where
  gitCommit : String
  revNum : Int
  committer : String
  commit_date : String
  URL : String
deriving DecidableEq, Repr

/-! ### file_diff (source lines 124 to 139) -/

/-- The attributes of an on-disk file that `file_diff` inspects: the
`os.stat` fields it compares and the byte content (`st_size` is the length
of the content). -/
structure FileStat where
  st_mode : Nat
  st_uid : Nat
  st_gid : Nat
  content : List Nat
deriving DecidableEq, Repr

/-- Model of `file_diff(file1, file2)` (source lines 124 to 139); `file2` is
`none` when the second path does not exist, in which case the disjunction
short-circuits before `filecmp.cmp` runs.  `filecmp.cmp` with
`shallow=False` first compares sizes and then the full byte contents, which
together amount to byte equality of the contents. -/
def file_diff (file1 : FileStat) (file2 : Option FileStat) : Bool :=
  match file2 with
  | none => true
  | some f2 =>
    let d := decide (file1.st_mode ≠ f2.st_mode)
    let d := d || decide (file1.content.length ≠ f2.content.length)
    let d := d || decide (file1.st_uid ≠ f2.st_uid)
    let d := d || decide (file1.st_gid ≠ f2.st_gid)
    d || decide (¬ (file1.content = f2.content))

/-! ### tag_rev_search (source lines 934 to 965) -/

/-- Model of `tag_rev_search(rev, rev_next, tag_rev_list)` (source lines 934
to 965).  The tag revisions below the current revision are discarded, then
Python takes `min(tag_abv_list, key=lambda x: x - curr_rev_int)`; the key is
strictly increasing, so this is the plain minimum of the filtered list, and
`min` of an empty list raises `ValueError`, modelled as `none`.  On success
the function returns `list.index` of the minimum in the full list when it
lies strictly below the next revision, and -1 otherwise. -/
def tag_rev_search (rev rev_next : Int) (tag_rev_list : List Int) : Option Int :=
  let tag_abv_list := tag_rev_list.filter (fun r => rev ≤ r)
  match tag_abv_list with
  | [] => none
  | t :: ts =>
    let tag_rev_close := ts.foldl min t
    if tag_rev_close < rev_next then some ((listIndex tag_rev_close tag_rev_list : Nat) : Int)
    else some (-1)

/-! ### Author resolution inside svn_capture_log (source lines 856 to 891) -/

/-- Model of the author-resolution block of `svn_capture_log` (source lines
856 to 891), for a run in which an author table was supplied.  The Python
dict is an association list; the result is the resolved identity, the
(possibly extended) table, and whether a warning was printed.  An exact
table match wins silently; otherwise a configured default author is
substituted and recorded in the table; otherwise an identity containing `@`
becomes local part, space-colon-space, and the identity in angle brackets,
and an identity without `@` gets the fixed placeholder email appended. -/
def resolve_author (who : String) (auth_table : List (String × String))
    (default_author : Option String) : String × List (String × String) × Bool :=
  match List.lookup who auth_table with
  | some mapped => (mapped, auth_table, false)
  | none =>
    match default_author with
    | some d => (d, (who, d) :: auth_table, true)
    | none =>
      if '@' ∈ who.data then
        let who_name := (who.data.takeWhile (fun c => c ≠ '@')).asString
        (who_name ++ " : <" ++ who ++ ">", auth_table, true)
      else
        (who ++ " : <missing_email@missing.email>", auth_table, true)

/-! ### findParentCommit (source lines 1254 to 1267) -/

/-- Model of `findParentCommit(gitLog, svnRev)` (source lines 1254 to 1267):
walk the git log (newest first) and return the hash of the first entry
whose SVN revision is strictly below `svnRev`, or `none` when there is no
such entry. -/
def findParentCommit (gitLog : List Git2svnLogEntry) (svnRev : Int) : Option String :=
  match gitLog with
  | [] => none
  | log :: rest =>
    if log.revNum < svnRev then some log.gitCommit else findParentCommit rest svnRev

/-! ### The main pipeline filter and sort (source lines 2018 to 2034) -/

/-- Ordering by SVN revision number used by `sorted(svn_log, key=...)`. -/
def svnLogLe (a b : SvnLogEntry) : Prop := a.revNum ≤ b.revNum

instance : DecidableRel svnLogLe :=
  fun a b => inferInstanceAs (Decidable (a.revNum ≤ b.revNum))

instance : IsTotal SvnLogEntry svnLogLe :=
  ⟨fun a b => Int.le_total a.revNum b.revNum⟩

instance : IsTrans SvnLogEntry svnLogLe :=
  ⟨fun _ _ _ h1 h2 => Int.le_trans h1 h2⟩

/-- The captured log entries the main loop keeps (source lines 2018 to
2025): those whose revision number is not among the revisions already
recovered from the existing git history. -/
def mainKeptLogs (svn_logs : List SvnLogEntry) (gitRevs : List Int) : List SvnLogEntry :=
  svn_logs.filter (fun log => !(gitRevs.contains log.revNum))

/-- The captured log entries the main loop skips with a message (source
lines 2021 to 2024): those whose revision number is already in the git
history. -/
def mainSkippedLogs (svn_logs : List SvnLogEntry) (gitRevs : List Int) : List SvnLogEntry :=
  svn_logs.filter (fun log => gitRevs.contains log.revNum)

/-- The kept entries sorted by ascending revision number (source line 2029);
Python `sorted` is a stable sort, modelled by insertion sort. -/
def mainSortedLogs (svn_logs : List SvnLogEntry) (gitRevs : List Int) : List SvnLogEntry :=
  List.insertionSort svnLogLe (mainKeptLogs svn_logs gitRevs)

/-- The sequence of revision numbers handed to `processRevision`, in call
order (source lines 2032 to 2034). -/
def mainProcessedOrder (svn_logs : List SvnLogEntry) (gitRevs : List Int) : List Int :=
  (mainSortedLogs svn_logs gitRevs).map (fun log => log.revNum)

/-! ### processRevision commit decision (source lines 223 to 555 and 1409 to 1503) -/

/-- The boilerplate files copied into every migrated tree (source line 19). -/
def cam_copy_files : List String := [".config_files.xml", ".gitignore", "TGIT.sh"]

/-- The value `cam_svn_to_git_mods` (source lines 223 to 555) adds to
`num_changes`: the function patches the build and test scripts of the
exported tree and increments its counter once per patched file regardless
of whether any text actually changed.  The unconditional increments are for
buildnml, buildcpp, definition.xml, configure, test_driver.sh, TBL.sh,
TBL_ccsm.sh, TPF.sh, TR8.sh, input_tests_master, tests_pretag_hobart_nag
and Makefile.in (buildlib is patched but never counted);
tests_pretag_izumi_nag is counted only when that file exists. -/
def cam_svn_to_git_mods_count (izumi_exists : Bool) : Nat :=
  12 + (if izumi_exists then 1 else 0)

/-- The `num_changes` counter of `processRevision` (source lines 1409 to
1503) as a function of the reconciliation outcome: `orphans1` are the files
only in the staging export (additions), `orphans2` the files only in the
working copy (removals, of which the boilerplate files are never removed),
`numCopies` the number of files `copySvn2Git` actually copied (those with
`file_diff` true, minus skipped dangling symlinks), `boilerDiff` says which
boilerplate files differ from their canned copies, and `izumi_exists`
whether the optional test list file exists. -/
def processRevision_numChanges (orphans1 orphans2 : List String) (numCopies : Nat)
    (boilerDiff : String → Bool) (izumi_exists : Bool) : Nat :=
  let removeCount := (orphans2.filter (fun f => !(cam_copy_files.contains f))).length
  let addCount := orphans1.length
  let boilerCount := (cam_copy_files.filter boilerDiff).length
  removeCount + numCopies + addCount + boilerCount + cam_svn_to_git_mods_count izumi_exists

/-- Whether `processRevision` reaches the `gitCommitAll` call (source lines
1495 to 1498): it does exactly when `num_changes > 0`. -/
def processRevision_commitInvoked (orphans1 orphans2 : List String) (numCopies : Nat)
    (boilerDiff : String → Bool) (izumi_exists : Bool) : Bool :=
  decide (0 < processRevision_numChanges orphans1 orphans2 numCopies boilerDiff izumi_exists)

/-! ## Utility lemmas -/

theorem pySplitColon_cons (c : Char) (cs : List Char) :
    pySplitColon (c :: cs) =
      match pySplitColon cs with
      | [] => [[]]
      | f :: rest => if c = ':' then [] :: f :: rest else (c :: f) :: rest := rfl

theorem pySplitColon_ne_nil (s : List Char) : pySplitColon s ≠ [] := by
  cases s with
  | nil => simp [pySplitColon]
  | cons c cs =>
    rw [pySplitColon_cons]
    cases h : pySplitColon cs with
    | nil => simp
    | cons f rest =>
      by_cases hc : c = ':' <;> simp [hc]

theorem pySplitColon_no_colon (s : List Char) (h : ':' ∉ s) : pySplitColon s = [s] := by
  induction s with
  | nil => rfl
  | cons c cs ih =>
    have hc : c ≠ ':' := fun hcc => h (hcc ▸ List.mem_cons_self c cs)
    have hcs : ':' ∉ cs := fun hmem => h (List.mem_cons_of_mem c hmem)
    rw [pySplitColon_cons, ih hcs]
    simp [hc]

theorem pySplitColon_append_colon (ns ms : List Char) (h : ':' ∉ ns) :
    pySplitColon (ns ++ ':' :: ms) = ns :: pySplitColon ms := by
  induction ns with
  | nil =>
    show pySplitColon (':' :: ms) = [] :: pySplitColon ms
    rw [pySplitColon_cons]
    cases hm : pySplitColon ms with
    | nil => exact absurd hm (pySplitColon_ne_nil ms)
    | cons f rest => simp
  | cons c cs ih =>
    have hc : c ≠ ':' := fun hcc => h (hcc ▸ List.mem_cons_self c cs)
    have hcs : ':' ∉ cs := fun hmem => h (List.mem_cons_of_mem c hmem)
    show pySplitColon (c :: (cs ++ ':' :: ms)) = (c :: cs) :: pySplitColon ms
    rw [pySplitColon_cons, ih hcs]
    simp [hc]

theorem pySplitColon_length (s : List Char) :
    (pySplitColon s).length = s.count ':' + 1 := by
  induction s with
  | nil => rfl
  | cons c cs ih =>
    rw [pySplitColon_cons]
    cases h : pySplitColon cs with
    | nil => exact absurd h (pySplitColon_ne_nil cs)
    | cons f rest =>
      rw [h] at ih
      dsimp only
      by_cases hc : c = ':'
      · subst hc
        rw [if_pos rfl, List.count_cons_self]
        simp only [List.length_cons] at ih ⊢
        omega
      · rw [if_neg hc, List.count_cons_of_ne (fun hh => hc hh.symm)]
        simp only [List.length_cons] at ih ⊢
        omega

theorem pyInt_ne_nil {s : List Char} {n : Int} (h : pyInt s = some n) : s ≠ [] := by
  intro he
  subst he
  simp [pyInt] at h

theorem natDigitsFuel_succ_ne_nil (fuel n : Nat) : natDigitsFuel (fuel + 1) n ≠ [] := by
  unfold natDigitsFuel
  split
  · simp
  · simp

theorem pyStrNat_length_pos (n : Nat) : 0 < (pyStrNat n).length := by
  have h := natDigitsFuel_succ_ne_nil n n
  unfold pyStrNat
  cases hd : natDigitsFuel (n + 1) n with
  | nil => exact absurd hd h
  | cons c cs => simp [List.asString, String.length]

theorem pyStr_length_pos (i : Int) (h : 0 < i) : 0 < (pyStr i).length := by
  unfold pyStr
  rw [if_neg (by omega)]
  exact pyStrNat_length_pos _

theorem svnRevRange_init_single (rs : List Char) (h : ':' ∉ rs) :
    SvnRevRange.init (some rs) =
      if rs = "HEAD".data then .ok ⟨0, -1⟩
      else if rs = "BASE".data then .ok ⟨-1, 0⟩
      else if 0 < rs.length then
        match pyInt rs with
        | some v => .ok ⟨v, 0⟩
        | none => .error .intValueError
      else .ok ⟨-1, 0⟩ := by
  unfold SvnRevRange.init
  dsimp only
  rw [pySplitColon_no_colon rs h]
  rfl

theorem svnRevRange_init_pair (r0 r1 : List Char) (h0 : ':' ∉ r0) (h1 : ':' ∉ r1) :
    SvnRevRange.init (some (r0 ++ ':' :: r1)) =
      (do
        let s ← (if 0 < r0.length then
            match pyInt r0 with
            | some v => Except.ok v
            | none => Except.error RevRangeErr.intValueError
          else Except.ok (-1))
        let e ← (if 0 < r1.length then
            match pyInt r1 with
            | some v => Except.ok v
            | none => Except.error RevRangeErr.intValueError
          else Except.ok (-1))
        return ⟨s, e⟩) := by
  unfold SvnRevRange.init
  dsimp only
  rw [pySplitColon_append_colon r0 r1 h0, pySplitColon_no_colon r1 h1]
  rfl

/-- C6: `SvnRevRange` accepts exactly the forms N, N:M, :M, N:, BASE, HEAD
and the empty string, with start -1 meaning earliest, end -1 meaning most
recent and 0 meaning not specified, and any string with more than one colon
is a fatal configuration error rather than a range. -/
theorem svnRevRange_init_forms :
    (∀ ns n, pyInt ns = some n → ':' ∉ ns →
      SvnRevRange.init (some ns) = .ok ⟨n, 0⟩) ∧
    (∀ ns ms n m, pyInt ns = some n → pyInt ms = some m → ':' ∉ ns → ':' ∉ ms →
      SvnRevRange.init (some (ns ++ ':' :: ms)) = .ok ⟨n, m⟩) ∧
    (∀ ms m, pyInt ms = some m → ':' ∉ ms →
      SvnRevRange.init (some (':' :: ms)) = .ok ⟨-1, m⟩) ∧
    (∀ ns n, pyInt ns = some n → ':' ∉ ns →
      SvnRevRange.init (some (ns ++ [':'])) = .ok ⟨n, -1⟩) ∧
    SvnRevRange.init (some "BASE".data) = .ok ⟨-1, 0⟩ ∧
    SvnRevRange.init (some "HEAD".data) = .ok ⟨0, -1⟩ ∧
    SvnRevRange.init (some []) = .ok ⟨-1, 0⟩ ∧
    (∀ s : List Char, 2 ≤ s.count ':' →
      SvnRevRange.init (some s) = .error .illegalRevString) := by
  refine ⟨?_, ?_, ?_, ?_, ?_, ?_, ?_, ?_⟩
  · intro ns n hn hcol
    have hne := pyInt_ne_nil hn
    have hH : ns ≠ "HEAD".data := by
      rintro rfl
      rw [show pyInt "HEAD".data = none from by decide] at hn
      exact Option.noConfusion hn
    have hB : ns ≠ "BASE".data := by
      rintro rfl
      rw [show pyInt "BASE".data = none from by decide] at hn
      exact Option.noConfusion hn
    rw [svnRevRange_init_single ns hcol, if_neg hH, if_neg hB,
        if_pos (List.length_pos.mpr hne), hn]
  · intro ns ms n m hn hm hcn hcm
    rw [svnRevRange_init_pair ns ms hcn hcm,
        if_pos (List.length_pos.mpr (pyInt_ne_nil hn)), hn,
        if_pos (List.length_pos.mpr (pyInt_ne_nil hm)), hm]
    rfl
  · intro ms m hm hcm
    show SvnRevRange.init (some ([] ++ ':' :: ms)) = _
    rw [svnRevRange_init_pair [] ms (by simp) hcm, if_neg (by decide),
        if_pos (List.length_pos.mpr (pyInt_ne_nil hm)), hm]
    rfl
  · intro ns n hn hcn
    show SvnRevRange.init (some (ns ++ ':' :: [])) = _
    rw [svnRevRange_init_pair ns [] hcn (by simp),
        if_pos (List.length_pos.mpr (pyInt_ne_nil hn)), hn, if_neg (by decide)]
    rfl
  · rfl
  · rfl
  · rfl
  · intro s hcount
    have h2 : (pySplitColon s).length > 2 := by
      rw [pySplitColon_length]
      omega
    unfold SvnRevRange.init
    dsimp only
    rw [if_pos h2]

/-- C7: `revString` renders a negative start as the string 1, a negative
end as the literal keyword HEAD, omits a side equal to 0, renders positive
sides as their decimal digits, and joins the two rendered sides with a
colon exactly when both are non-empty; the nine sign cases below cover
every value. -/
theorem svnRevRange_revString_cases (r : SvnRevRange) :
    (r.start < 0 → r.endRev < 0 → r.revString = "1:HEAD") ∧
    (r.start < 0 → r.endRev = 0 → r.revString = "1") ∧
    (r.start < 0 → 0 < r.endRev → r.revString = "1:" ++ pyStr r.endRev) ∧
    (r.start = 0 → r.endRev < 0 → r.revString = "HEAD") ∧
    (r.start = 0 → r.endRev = 0 → r.revString = "") ∧
    (r.start = 0 → 0 < r.endRev → r.revString = pyStr r.endRev) ∧
    (0 < r.start → r.endRev < 0 → r.revString = pyStr r.start ++ ":HEAD") ∧
    (0 < r.start → r.endRev = 0 → r.revString = pyStr r.start) ∧
    (0 < r.start → 0 < r.endRev → r.revString = pyStr r.start ++ ":" ++ pyStr r.endRev) := by
  refine ⟨?_, ?_, ?_, ?_, ?_, ?_, ?_, ?_, ?_⟩
  · intro h1 h2
    unfold SvnRevRange.revString
    dsimp only
    rw [if_pos h1, if_pos h2]
    decide
  · intro h1 h2
    unfold SvnRevRange.revString
    dsimp only
    rw [if_pos h1, h2]
    decide
  · intro h1 h2
    unfold SvnRevRange.revString
    dsimp only
    rw [if_pos h1, if_neg (show ¬(r.endRev < 0) by omega),
        if_neg (show ¬(r.endRev = 0) by omega),
        if_pos (show 0 < ("1" : String).length ∧ 0 < (pyStr r.endRev).length from
          ⟨by decide, pyStr_length_pos _ h2⟩),
        show ("1" ++ ":" : String) = "1:" from by decide]
  · intro h1 h2
    unfold SvnRevRange.revString
    dsimp only
    rw [h1, if_pos h2]
    decide
  · intro h1 h2
    unfold SvnRevRange.revString
    dsimp only
    rw [h1, h2]
    decide
  · intro h1 h2
    unfold SvnRevRange.revString
    dsimp only
    rw [h1, if_neg (show ¬(r.endRev < 0) by omega),
        if_neg (show ¬(r.endRev = 0) by omega),
        show (if (0 : Int) < 0 then "1" else if (0 : Int) = 0 then "" else pyStr 0) = ""
          from by decide,
        if_neg (show ¬(0 < ("" : String).length ∧ 0 < (pyStr r.endRev).length) from
          fun hand => absurd hand.1 (by decide)),
        String.empty_append]
  · intro h1 h2
    unfold SvnRevRange.revString
    dsimp only
    rw [if_neg (show ¬(r.start < 0) by omega), if_neg (show ¬(r.start = 0) by omega),
        if_pos h2,
        if_pos (show 0 < (pyStr r.start).length ∧ 0 < ("HEAD" : String).length from
          ⟨pyStr_length_pos _ h1, by decide⟩),
        String.append_assoc,
        show (":" ++ "HEAD" : String) = ":HEAD" from by decide]
  · intro h1 h2
    unfold SvnRevRange.revString
    dsimp only
    rw [if_neg (show ¬(r.start < 0) by omega), if_neg (show ¬(r.start = 0) by omega), h2,
        show (if (0 : Int) < 0 then "HEAD" else if (0 : Int) = 0 then "" else pyStr 0) = ""
          from by decide,
        if_neg (show ¬(0 < (pyStr r.start).length ∧ 0 < ("" : String).length) from
          fun hand => absurd hand.2 (by decide)),
        String.append_empty]
  · intro h1 h2
    unfold SvnRevRange.revString
    dsimp only
    rw [if_neg (show ¬(r.start < 0) by omega), if_neg (show ¬(r.start = 0) by omega),
        if_neg (show ¬(r.endRev < 0) by omega), if_neg (show ¬(r.endRev = 0) by omega),
        if_pos (show 0 < (pyStr r.start).length ∧ 0 < (pyStr r.endRev).length from
          ⟨pyStr_length_pos _ h1, pyStr_length_pos _ h2⟩)]

theorem foldl_linesep_joinLines (ms : List String) (m0 X : String) :
    List.foldl (fun acc line => acc ++ linesep ++ line) X (m0 :: ms) =
      X ++ linesep ++ joinLines (m0 :: ms) := by
  induction ms generalizing m0 X with
  | nil => rfl
  | cons m1 ms ih =>
    show List.foldl (fun acc line => acc ++ linesep ++ line) (X ++ linesep ++ m0) (m1 :: ms) = _
    rw [ih m1 (X ++ linesep ++ m0),
        show joinLines (m0 :: m1 :: ms) = m0 ++ linesep ++ joinLines (m1 :: ms) from rfl]
    simp [String.append_assoc]

/-- C1 (amended): for a non-empty message, `formatLogMessage` produces, in
order: the first message line (truncated to its first 68 characters plus a
space and three dots when longer than 72 characters), a blank line, the
`Imported from URL@revision` line, the `Committed by author at timestamp`
line, the `Original svn commit message:` header, a blank line, and then the
original message lines.  The full original message appears once, after the
header, and not between the summary line and the footer. -/
theorem formatLogMessage_layout (e : SvnLogEntry) (m0 : String) (rest : List String)
    (h : e.message = m0 :: rest) :
    e.formatLogMessage = some (joinLines
      ([if m0.length > 72 then (m0.data.take 68).asString ++ " ..." else m0, "",
        "Imported from " ++ e.URL ++ "@" ++ pyStr e.revNum,
        cby_str ++ " " ++ e.committer ++ " at " ++ e.commit_date,
        "Original svn commit message:", ""] ++ e.message)) := by
  unfold SvnLogEntry.formatLogMessage
  rw [h]
  dsimp only
  rw [foldl_linesep_joinLines]
  simp only [List.cons_append, List.nil_append]
  rw [show joinLines ((if m0.length > 72 then (m0.data.take 68).asString ++ " ..." else m0) ::
        "" :: ("Imported from " ++ e.URL ++ "@" ++ pyStr e.revNum) ::
        (cby_str ++ " " ++ e.committer ++ " at " ++ e.commit_date) ::
        "Original svn commit message:" :: "" :: m0 :: rest) =
      (if m0.length > 72 then (m0.data.take 68).asString ++ " ..." else m0) ++ linesep ++
        ("" ++ linesep ++
          (("Imported from " ++ e.URL ++ "@" ++ pyStr e.revNum) ++ linesep ++
            ((cby_str ++ " " ++ e.committer ++ " at " ++ e.commit_date) ++ linesep ++
              ("Original svn commit message:" ++ linesep ++
                ("" ++ linesep ++ joinLines (m0 :: rest)))))) from by
    simp [joinLines]]
  simp [String.append_assoc]

/-- C1 witness: the layout theorem applied to a concrete one-line entry,
with both sides evaluated. -/
theorem formatLogMessage_layout_witness :
    (⟨7, "alice", "2020-01-01", "https://svn.example/trunk", ["hello world"], none⟩ :
        SvnLogEntry).message = "hello world" :: [] ∧
    (⟨7, "alice", "2020-01-01", "https://svn.example/trunk", ["hello world"], none⟩ :
        SvnLogEntry).formatLogMessage =
      some ("hello world\n\nImported from https://svn.example/trunk@7\nCommitted by alice at 2020-01-01\nOriginal svn commit message:\n\nhello world") := by
  refine ⟨rfl, ?_⟩
  rw [formatLogMessage_layout _ "hello world" [] rfl]
  decide

/-- C1 counterexample: the claimed layout (summary, blank line, the full
original message, then the provenance footer) differs from what the code
produces, already for a one-line message: the code emits the import line
directly after the blank line and the original message only after the
`Original svn commit message:` header. -/
theorem formatLogMessage_claim_cex :
    (⟨1, "a", "d", "u", ["hello"], none⟩ : SvnLogEntry).formatLogMessage ≠
      (⟨1, "a", "d", "u", ["hello"], none⟩ : SvnLogEntry).formatLogMessageClaimed ∧
    (⟨1, "a", "d", "u", ["hello"], none⟩ : SvnLogEntry).formatLogMessage =
      some (joinLines ["hello", "", "Imported from u@1", "Committed by a at d",
        "Original svn commit message:", "", "hello"]) ∧
    (⟨1, "a", "d", "u", ["hello"], none⟩ : SvnLogEntry).formatLogMessageClaimed =
      some (joinLines ["hello", "", "hello", "", "Imported from u@1",
        "Committed by a at d", "Original svn commit message:", "hello"]) := by
  refine ⟨by decide, by decide, by decide⟩

/-- C5: `file_diff` returns true exactly when the second file is missing,
or the permission bits, size, owner or group differ, or the byte contents
differ. -/
theorem file_diff_iff (f1 : FileStat) (of2 : Option FileStat) :
    file_diff f1 of2 = true ↔
      of2 = none ∨ ∃ f2, of2 = some f2 ∧
        (f1.st_mode ≠ f2.st_mode ∨ f1.content.length ≠ f2.content.length ∨
         f1.st_uid ≠ f2.st_uid ∨ f1.st_gid ≠ f2.st_gid ∨ f1.content ≠ f2.content) := by
  cases of2 with
  | none => simp [file_diff]
  | some f2 =>
    simp only [file_diff, Bool.or_eq_true, decide_eq_true_eq]
    constructor
    · intro hd
      right
      exact ⟨f2, rfl, by tauto⟩
    · rintro (hnone | ⟨g, hg, hdiff⟩)
      · exact Option.noConfusion hnone
      · cases Option.some.inj hg
        tauto

theorem foldl_min_le_init (xs : List Int) (a : Int) : xs.foldl min a ≤ a := by
  induction xs generalizing a with
  | nil => exact le_refl a
  | cons x xs ih =>
    show xs.foldl min (min a x) ≤ a
    exact le_trans (ih (min a x)) (min_le_left a x)

theorem foldl_min_le_mem (xs : List Int) (a x : Int) : x ∈ xs → xs.foldl min a ≤ x := by
  induction xs generalizing a with
  | nil => exact fun hx => absurd hx (List.not_mem_nil x)
  | cons y ys ih =>
    intro hx
    show ys.foldl min (min a y) ≤ x
    rcases List.mem_cons.mp hx with h1 | h1
    · subst h1
      exact le_trans (foldl_min_le_init ys (min a x)) (min_le_right a x)
    · exact ih (min a y) h1

theorem foldl_min_mem (xs : List Int) (a : Int) :
    xs.foldl min a = a ∨ xs.foldl min a ∈ xs := by
  induction xs generalizing a with
  | nil => exact Or.inl rfl
  | cons x xs ih =>
    show xs.foldl min (min a x) = a ∨ xs.foldl min (min a x) ∈ x :: xs
    rcases ih (min a x) with h | h
    · rcases min_choice a x with hm | hm
      · exact Or.inl (h.trans hm)
      · exact Or.inr (by rw [h, hm]; exact List.mem_cons_self x xs)
    · exact Or.inr (List.mem_cons_of_mem x h)

theorem listIndex_getElem (m : Int) (l : List Int) (h : m ∈ l) :
    l[listIndex m l]? = some m := by
  induction l with
  | nil => cases h
  | cons x xs ih =>
    unfold listIndex
    by_cases hx : x = m
    · rw [if_pos hx, hx]
      exact List.getElem?_cons_zero
    · rw [if_neg hx, List.getElem?_cons_succ]
      rcases List.mem_cons.mp h with h1 | h1
      · exact absurd h1.symm hx
      · exact ih h1

/-- C3: when some tag revision is at least the current revision R,
`tag_rev_search` selects the minimum tag revision m that is at least R; if
m is strictly below the next revision it returns an index of the tag table
holding m (so the entry for R is labeled with that tag), and otherwise it
returns -1, so a tag between R and the next revision attaches to R and
never to a later revision. -/
theorem tag_rev_search_min_tag (R Rnext : Int) (tags : List Int)
    (h : ∃ t ∈ tags, R ≤ t) :
    ∃ m, m ∈ tags ∧ R ≤ m ∧ (∀ t ∈ tags, R ≤ t → m ≤ t) ∧
      ((m < Rnext → ∃ i : Nat, tag_rev_search R Rnext tags = some (i : Int) ∧
          tags[i]? = some m) ∧
       (Rnext ≤ m → tag_rev_search R Rnext tags = some (-1))) := by
  obtain ⟨t0, ht0, hRt0⟩ := h
  have hfmem : t0 ∈ tags.filter (fun r => decide (R ≤ r)) :=
    List.mem_filter.mpr ⟨ht0, by simpa using hRt0⟩
  cases hl : tags.filter (fun r => decide (R ≤ r)) with
  | nil =>
    rw [hl] at hfmem
    cases hfmem
  | cons t ts =>
    refine ⟨ts.foldl min t, ?_, ?_, ?_, ?_, ?_⟩
    · have hmf : ts.foldl min t ∈ tags.filter (fun r => decide (R ≤ r)) := by
        rw [hl]
        rcases foldl_min_mem ts t with h1 | h1
        · rw [h1]; exact List.mem_cons_self t ts
        · exact List.mem_cons_of_mem t h1
      exact (List.mem_filter.mp hmf).1
    · have hmf : ts.foldl min t ∈ tags.filter (fun r => decide (R ≤ r)) := by
        rw [hl]
        rcases foldl_min_mem ts t with h1 | h1
        · rw [h1]; exact List.mem_cons_self t ts
        · exact List.mem_cons_of_mem t h1
      simpa using (List.mem_filter.mp hmf).2
    · intro t' ht' hRt'
      have ht'f : t' ∈ tags.filter (fun r => decide (R ≤ r)) :=
        List.mem_filter.mpr ⟨ht', by simpa using hRt'⟩
      rw [hl] at ht'f
      rcases List.mem_cons.mp ht'f with h1 | h1
      · rw [h1]
        exact foldl_min_le_init ts t
      · exact foldl_min_le_mem ts t t' h1
    · intro hlt
      refine ⟨listIndex (ts.foldl min t) tags, ?_, ?_⟩
      · unfold tag_rev_search
        rw [hl]
        dsimp only
        rw [if_pos hlt]
      · have hmf : ts.foldl min t ∈ tags.filter (fun r => decide (R ≤ r)) := by
          rw [hl]
          rcases foldl_min_mem ts t with h1 | h1
          · rw [h1]; exact List.mem_cons_self t ts
          · exact List.mem_cons_of_mem t h1
        exact listIndex_getElem _ _ (List.mem_filter.mp hmf).1
    · intro hge
      unfold tag_rev_search
      rw [hl]
      dsimp only
      rw [if_neg (not_lt.mpr hge)]

/-- C3 witness: with current revision 10, next revision 12 and tag table
[11, 5], the minimum tag revision at least 10 is 11, it lies below 12, and
the search returns index 0, whose table entry is 11. -/
theorem tag_rev_search_min_tag_witness :
    (∃ t ∈ ([11, 5] : List Int), (10 : Int) ≤ t) ∧
    (∃ m, m ∈ ([11, 5] : List Int) ∧ (10 : Int) ≤ m ∧
      (∀ t ∈ ([11, 5] : List Int), (10 : Int) ≤ t → m ≤ t) ∧
      ((m < 12 → ∃ i : Nat, tag_rev_search 10 12 [11, 5] = some (i : Int) ∧
          ([11, 5] : List Int)[i]? = some m) ∧
       (12 ≤ m → tag_rev_search 10 12 [11, 5] = some (-1)))) :=
  ⟨by decide, tag_rev_search_min_tag 10 12 [11, 5] (by decide)⟩

/-- C10: when every tag revision is strictly below the current revision R,
`tag_rev_search` takes the minimum of an empty sequence and raises an
exception instead of returning any index, and the -1 result occurs only
when some tag revision at least R exists but every such tag revision
(hence their minimum) is at least the next revision. -/
theorem tag_rev_search_all_below (R Rnext : Int) (tags : List Int) :
    ((∀ t ∈ tags, t < R) → tag_rev_search R Rnext tags = none) ∧
    (tag_rev_search R Rnext tags = some (-1) →
      (∃ t ∈ tags, R ≤ t) ∧ (∀ t ∈ tags, R ≤ t → Rnext ≤ t)) := by
  constructor
  · intro hall
    unfold tag_rev_search
    rw [List.filter_eq_nil_iff.mpr
      (fun a ha => by simpa using not_le.mpr (hall a ha))]
  · intro hres
    unfold tag_rev_search at hres
    cases hl : tags.filter (fun r => decide (R ≤ r)) with
    | nil =>
      rw [hl] at hres
      exact Option.noConfusion hres
    | cons t ts =>
      rw [hl] at hres
      dsimp only at hres
      by_cases hlt : ts.foldl min t < Rnext
      · rw [if_pos hlt] at hres
        have hinj := Option.some.inj hres
        have : (0 : Int) ≤ (listIndex (ts.foldl min t) tags : Int) := Int.natCast_nonneg _
        omega
      · have htf : t ∈ tags ∧ R ≤ t := by
          have := List.mem_filter.mp (hl ▸ List.mem_cons_self t ts)
          exact ⟨this.1, by simpa using this.2⟩
        refine ⟨⟨t, htf.1, htf.2⟩, ?_⟩
        intro t' ht' hRt'
        have ht'f : t' ∈ tags.filter (fun r => decide (R ≤ r)) :=
          List.mem_filter.mpr ⟨ht', by simpa using hRt'⟩
        rw [hl] at ht'f
        have hm_le : ts.foldl min t ≤ t' := by
          rcases List.mem_cons.mp ht'f with h1 | h1
          · rw [h1]; exact foldl_min_le_init ts t
          · exact foldl_min_le_mem ts t t' h1
        exact le_trans (not_lt.mp hlt) hm_le

/-- C8: scanning newest to oldest, `findParentCommit` returns the commit
hash of the first history record whose embedded SVN revision is strictly
below the target revision. -/
theorem findParentCommit_first (gitLog : List Git2svnLogEntry) (svnRev : Int) :
    findParentCommit gitLog svnRev =
      (gitLog.find? (fun log => decide (log.revNum < svnRev))).map
        (fun log => log.gitCommit) := by
  induction gitLog with
  | nil => rfl
  | cons log rest ih =>
    unfold findParentCommit
    by_cases hlt : log.revNum < svnRev
    · rw [if_pos hlt, List.find?_cons_of_pos _ (by simpa using hlt)]
      rfl
    · rw [if_neg hlt, List.find?_cons_of_neg _ (by simpa using hlt), ih]

/-- C9: author resolution policy order: an exact table match returns the
mapped identity with no warning; otherwise a configured default author is
substituted, recorded in the table, and a second resolution of the same
identity then hits the table without a warning; otherwise an identity with
an at sign becomes its local part, a spaced colon, and the identity in
angle brackets; otherwise the fixed placeholder email is appended, so carol
resolves to `carol : <missing_email@missing.email>`. -/
theorem resolve_author_policy (who : String) (t : List (String × String)) (d : Option String) :
    (∀ mapped, List.lookup who t = some mapped →
      resolve_author who t d = (mapped, t, false)) ∧
    (∀ dv, List.lookup who t = none → d = some dv →
      resolve_author who t d = (dv, (who, dv) :: t, true) ∧
      resolve_author who ((who, dv) :: t) d = (dv, (who, dv) :: t, false)) ∧
    (List.lookup who t = none → d = none → '@' ∈ who.data →
      resolve_author who t d =
        ((who.data.takeWhile (fun c => c ≠ '@')).asString ++ " : <" ++ who ++ ">", t, true)) ∧
    (List.lookup who t = none → d = none → '@' ∉ who.data →
      resolve_author who t d = (who ++ " : <missing_email@missing.email>", t, true)) ∧
    resolve_author "carol" [("bob", "Bob Smith <bob@example.org>")] none =
      ("carol : <missing_email@missing.email>", [("bob", "Bob Smith <bob@example.org>")], true) := by
  refine ⟨?_, ?_, ?_, ?_, ?_⟩
  · intro mapped hm
    unfold resolve_author
    rw [hm]
  · intro dv hm hd
    unfold resolve_author
    rw [hm, hd]
    exact ⟨rfl, by rw [List.lookup_cons_self]⟩
  · intro hm hd hat
    unfold resolve_author
    rw [hm, hd]
    dsimp only
    rw [if_pos hat]
  · intro hm hd hat
    unfold resolve_author
    rw [hm, hd]
    dsimp only
    rw [if_neg hat]
  · decide

/-- C2: the main loop keeps exactly the captured entries whose revision
number is not already in the git history (the skipped ones are exactly
those whose revision is), sorts the kept entries by ascending revision
number, and hands them to `processRevision` in that order; in particular
pending revisions 10, 12, 15 with 12 already present are processed as 10
then 15. -/
theorem main_pipeline_filter_sort (svn_logs : List SvnLogEntry) (gitRevs : List Int) :
    (∀ e, e ∈ mainSortedLogs svn_logs gitRevs ↔ e ∈ svn_logs ∧ e.revNum ∉ gitRevs) ∧
    List.Sorted svnLogLe (mainSortedLogs svn_logs gitRevs) ∧
    (∀ e, e ∈ mainSkippedLogs svn_logs gitRevs ↔ e ∈ svn_logs ∧ e.revNum ∈ gitRevs) ∧
    mainProcessedOrder
      [⟨10, "a", "t", "u", ["m"], none⟩, ⟨12, "a", "t", "u", ["m"], none⟩,
       ⟨15, "a", "t", "u", ["m"], none⟩] [12] = [10, 15] := by
  refine ⟨?_, ?_, ?_, by decide⟩
  · intro e
    unfold mainSortedLogs mainKeptLogs
    rw [List.mem_insertionSort, List.mem_filter]
    simp
  · exact List.sorted_insertionSort svnLogLe (mainKeptLogs svn_logs gitRevs)
  · intro e
    unfold mainSkippedLogs
    rw [List.mem_filter]
    simp

/-- C4 (amended): `gitCommitAll` is reached exactly when `num_changes` is
positive, but `num_changes` unconditionally includes the build-script
modification count of at least twelve, so a commit is attempted for every
processed revision, even one whose exported snapshot is identical to the
working tree. -/
theorem processRevision_commit_always (orphans1 orphans2 : List String) (numCopies : Nat)
    (boilerDiff : String → Bool) (izumi_exists : Bool) :
    processRevision_commitInvoked orphans1 orphans2 numCopies boilerDiff izumi_exists = true ∧
    12 ≤ processRevision_numChanges orphans1 orphans2 numCopies boilerDiff izumi_exists := by
  have h12 : 12 ≤ processRevision_numChanges orphans1 orphans2 numCopies boilerDiff
      izumi_exists := by
    unfold processRevision_numChanges cam_svn_to_git_mods_count
    cases izumi_exists <;> dsimp only <;> omega
  exact ⟨by unfold processRevision_commitInvoked; simpa using by omega, h12⟩

/-- C4 counterexample: an exported snapshot identical to the working tree
(no additions, no removals, no differing files to copy, no boilerplate
differences) still reaches the commit call, refuting the claim that
`gitCommitAll` is invoked only when the union of added, removed and changed
files is non-empty. -/
theorem processRevision_noop_commit_cex :
    processRevision_commitInvoked [] [] 0 (fun _ => false) false = true := by
  decide

end SvnSelectToGit
